import Mathlib

/-!
Verification of the CSV bulk-load pipeline of `import.py` (Smart-Mobility-Solutions).

The development embeds, as executable Lean definitions:
  * `ensure_json` (the semi-structured field coercer), together with a model of
    Python's `json.dumps` on lists of strings and a JSON-syntax checker;
  * the per-table `TableSpec` data (canonical column lists, cast-expression
    templates, key columns, upsert flags) exactly as written in the importers;
  * the SQL cast semantics applied by the `INSERT ... SELECT` statement of
    `copy_with_temp`, the staging-table lifecycle, the `ON CONFLICT DO NOTHING`
    conflict resolution, and the orchestration loop of `main` (which runs all
    tables inside a single `eng.begin()` transaction);
  * the pandas header normalization performed by `import_roads`.
-/

set_option maxRecDepth 100000
set_option maxHeartbeats 2000000

namespace SmartMobility

/-! ## Character-list string operations.

The embedding uses these fully structural equivalents of the library's
byte-position-based string functions so that every definition evaluates by
plain kernel reduction on concrete inputs. -/

/-- `s.startswith(pre)`. -/
def strStartsWith (s pre : String) : Bool := pre.data.isPrefixOf s.data

/-- `s.endswith(suf)`. -/
def strEndsWith (s suf : String) : Bool := suf.data.isSuffixOf s.data

/-- Drop the first `n` characters. -/
def strDrop (s : String) (n : Nat) : String := String.mk (s.data.drop n)

/-- Drop the last `n` characters. -/
def strDropRight (s : String) (n : Nat) : String :=
  String.mk (s.data.take (s.data.length - n))

/-- Python `str.strip()` on the whitespace occurring in this data
(space, tab, carriage return, newline). -/
def strTrim (s : String) : String :=
  String.mk (((s.data.dropWhile Char.isWhitespace).reverse.dropWhile
    Char.isWhitespace).reverse)

def splitOnCharAux (sep : Char) : List Char → List Char → List (List Char)
  | [], acc => [acc.reverse]
  | c :: rest, acc =>
    if c = sep then acc.reverse :: splitOnCharAux sep rest []
    else splitOnCharAux sep rest (c :: acc)

/-- Python `s.split(sep)` for a one-character separator (empty pieces kept). -/
def strSplitOn (s : String) (sep : Char) : List String :=
  (splitOnCharAux sep s.data []).map String.mk

def strJoin : List String → String
  | [] => ""
  | x :: xs => x ++ strJoin xs

def strIntercalate (sep : String) : List String → String
  | [] => ""
  | [x] => x
  | x :: xs => x ++ sep ++ strIntercalate sep xs

/-! ## A JSON syntax checker (json.org grammar, used to state validity of text). -/

def jsonWs (c : Char) : Bool :=
  c = ' ' || c = '\t' || c = '\n' || c = '\r'

def skipWs (cs : List Char) : List Char := cs.dropWhile jsonWs

def hexDigit (c : Char) : Bool :=
  c.isDigit || ('a' ≤ c && c ≤ 'f') || ('A' ≤ c && c ≤ 'F')

def strEscChar (c : Char) : Bool :=
  c = '"' || c = '\\' || c = '/' || c = 'b' || c = 'f' || c = 'n' || c = 'r' || c = 't'

/-- Consume the body of a JSON string after its opening quote, up to and
including the closing quote. -/
def parseStrBody : List Char → Option (List Char)
  | [] => none
  | '"' :: rest => some rest
  | '\\' :: c :: rest =>
    if strEscChar c then parseStrBody rest
    else if c = 'u' then
      match rest with
      | a :: b :: d :: e :: rest2 =>
        if hexDigit a && hexDigit b && hexDigit d && hexDigit e then parseStrBody rest2
        else none
      | _ => none
    else none
  | c :: rest => if 32 ≤ c.toNat then parseStrBody rest else none

def parseDigits1 : List Char → Option (List Char)
  | c :: rest => if c.isDigit then some (rest.dropWhile Char.isDigit) else none
  | [] => none

def parseIntPart : List Char → Option (List Char)
  | '0' :: rest => some rest
  | c :: rest => if c.isDigit then some (rest.dropWhile Char.isDigit) else none
  | [] => none

def parseFracPart (cs : List Char) : Option (List Char) :=
  match cs with
  | '.' :: rest => parseDigits1 rest
  | _ => some cs

def parseExpPart (cs : List Char) : Option (List Char) :=
  match cs with
  | c :: rest =>
    if c = 'e' || c = 'E' then
      match rest with
      | s :: rest2 =>
        if s = '+' || s = '-' then parseDigits1 rest2 else parseDigits1 rest
      | [] => none
    else some cs
  | [] => some cs

def parseNumber (cs : List Char) : Option (List Char) :=
  let cs1 := match cs with | '-' :: rest => rest | _ => cs
  match parseIntPart cs1 with
  | none => none
  | some r1 =>
    match parseFracPart r1 with
    | none => none
    | some r2 => parseExpPart r2

mutual

def parseJsonValue : Nat → List Char → Option (List Char)
  | 0, _ => none
  | Nat.succ fuel, cs =>
    match skipWs cs with
    | '"' :: rest => parseStrBody rest
    | '\x7b' :: rest =>
      match skipWs rest with
      | '\x7d' :: rest2 => some rest2
      | rest2 => parseMembers fuel rest2
    | '[' :: rest =>
      match skipWs rest with
      | ']' :: rest2 => some rest2
      | rest2 => parseElements fuel rest2
    | 't' :: 'r' :: 'u' :: 'e' :: rest => some rest
    | 'f' :: 'a' :: 'l' :: 's' :: 'e' :: rest => some rest
    | 'n' :: 'u' :: 'l' :: 'l' :: rest => some rest
    | rest => parseNumber rest

def parseMembers : Nat → List Char → Option (List Char)
  | 0, _ => none
  | Nat.succ fuel, cs =>
    match skipWs cs with
    | '"' :: rest =>
      match parseStrBody rest with
      | none => none
      | some rest2 =>
        match skipWs rest2 with
        | ':' :: rest3 =>
          match parseJsonValue fuel rest3 with
          | none => none
          | some rest4 =>
            match skipWs rest4 with
            | ',' :: rest5 => parseMembers fuel rest5
            | '\x7d' :: rest5 => some rest5
            | _ => none
        | _ => none
    | _ => none

def parseElements : Nat → List Char → Option (List Char)
  | 0, _ => none
  | Nat.succ fuel, cs =>
    match parseJsonValue fuel cs with
    | none => none
    | some rest =>
      match skipWs rest with
      | ',' :: rest2 => parseElements fuel rest2
      | ']' :: rest2 => some rest2
      | _ => none

end

/-- Whether a string is a syntactically valid JSON document. -/
def isValidJson (s : String) : Bool :=
  match parseJsonValue (s.length + 1) s.data with
  | some rest => (skipWs rest).isEmpty
  | none => false

/-! ## Python `json.dumps` on lists of strings (default arguments).

`json.dumps` with default arguments escapes the double quote, the backslash and
every character outside the printable ASCII range `0x20`-`0x7e` (using the
short escapes for the usual control characters), and separates array items with
a comma followed by a space. -/

def hexChar (n : Nat) : Char :=
  if n < 10 then Char.ofNat (48 + n) else Char.ofNat (87 + (n - 10))

def uEscape (n : Nat) : String :=
  String.mk ['\\', 'u', hexChar (n / 4096 % 16), hexChar (n / 256 % 16),
             hexChar (n / 16 % 16), hexChar (n % 16)]

def pyEscapeChar (c : Char) : String :=
  if c = '"' then "\\\""
  else if c = '\\' then "\\\\"
  else if c = '\n' then "\\n"
  else if c = '\t' then "\\t"
  else if c = '\r' then "\\r"
  else if c = Char.ofNat 8 then "\\b"
  else if c = Char.ofNat 12 then "\\f"
  else if 32 ≤ c.toNat && c.toNat ≤ 126 then String.mk [c]
  else if c.toNat ≤ 65535 then uEscape c.toNat
  else uEscape (55296 + (c.toNat - 65536) / 1024) ++ uEscape (56320 + (c.toNat - 65536) % 1024)

def pyJsonStr (s : String) : String :=
  "\"" ++ strJoin (s.data.map pyEscapeChar) ++ "\""

/-- Model of `json.dumps(xs)` for a Python list of strings `xs`. -/
def pyDumpsStrList (xs : List String) : String :=
  "[" ++ strIntercalate (", ") (xs.map pyJsonStr) ++ "]"

/-! ## The field coercer `ensure_json` of `import.py`. -/

/-- A pandas cell as seen by `ensure_json`: a missing value (NaN), a native
Python list of strings, or text.  (`str.strip()` is modelled by `strTrim`,
which covers the ASCII whitespace actually occurring in the data.) -/
inductive CellVal where
  | na : CellVal
  | pylist (xs : List String) : CellVal
  | text (s : String) : CellVal
  deriving Repr, DecidableEq

/-- The `series.fillna("[]")` step of `ensure_json`. -/
def fillnaVal (v : CellVal) : CellVal :=
  match v with
  | CellVal.na => CellVal.text ("[]")
  | w => w

/-- The bracket/brace test of `ensure_json`:
`(s.startswith("[") and s.endswith("]")) or (s.startswith("{") and s.endswith("}"))`. -/
def delimitedText (s : String) : Bool :=
  (strStartsWith s ("[") && strEndsWith s ("]")) ||
  (strStartsWith s ("\x7b") && strEndsWith s ("\x7d"))

/-- The per-value body of `ensure_json` in `import.py`. -/
def ensureJsonVal (v : CellVal) : String :=
  match fillnaVal v with
  | CellVal.na => "[]"
  | CellVal.pylist xs => pyDumpsStrList xs
  | CellVal.text s0 =>
    let s := strTrim s0
    if delimitedText s then s
    else if s = "" then "[]"
    else pyDumpsStrList (((strSplitOn s ',').map strTrim).filter (fun x => x ≠ ""))

/-- The series-level `ensure_json`. -/
def ensureJson (series : List CellVal) : List String :=
  series.map ensureJsonVal

/-! ## Table descriptors, exactly as written in the per-table importers. -/

/-- The schema namespace `DB_SCHEMA` of `app_config.py`. -/
def dbSchema : String := "gauteng"

/-- Qualify a table name with the schema, as `f"{schema}.{name}"` does. -/
def fqName (t : String) : String := dbSchema ++ "." ++ t

/-- The staging-table name derived in `copy_with_temp`:
`tmp = f"tmp_{target_table.replace('.', '_')}"`. -/
def tmpName (target : String) : String :=
  "tmp_" ++ String.mk (target.data.map (fun c => if c = '.' then '_' else c))

/-- The data `copy_with_temp` receives for one table: target name, canonical
column list, per-column cast-expression templates, key columns, upsert flag. -/
structure TableSpec where
  target : String
  cols : List String
  casts : List (String × String)
  keyCols : List String
  upsert : Bool
  deriving Repr, DecidableEq

/-- The `import_roads` table data. -/
def roadsSpec : TableSpec where
  target := "roads"
  cols := ["segment_id", "road_id", "from_lat", "from_lon", "to_lat", "to_lon",
           "length_m", "road_type", "lanes", "speed_limit_kph", "oneway",
           "municipality", "province"]
  casts := [("from_lat", "CAST({col} AS NUMERIC(9,6))"),
            ("from_lon", "CAST({col} AS NUMERIC(9,6))"),
            ("to_lat", "CAST({col} AS NUMERIC(9,6))"),
            ("to_lon", "CAST({col} AS NUMERIC(9,6))"),
            ("length_m", "NULLIF({col}, '')::NUMERIC(10,1)"),
            ("lanes", "NULLIF({col}, '')::INT"),
            ("speed_limit_kph", "NULLIF({col}, '')::INT"),
            ("oneway", "NULLIF({col}, '')::INT"),
            ("road_type", "gauteng.road_enum({col})")]
  keyCols := ["segment_id"]
  upsert := true

/-- The `import_truck_profiles` table data. -/
def truckProfilesSpec : TableSpec where
  target := "truck_profiles"
  cols := ["truck_id", "max_weight_tons", "height_m", "width_m", "hazmat"]
  casts := [("max_weight_tons", "NULLIF({col}, '')::NUMERIC(6,2)"),
            ("height_m", "NULLIF({col}, '')::NUMERIC(5,2)"),
            ("width_m", "NULLIF({col}, '')::NUMERIC(5,2)"),
            ("hazmat", "NULLIF({col}, '')::INT")]
  keyCols := ["truck_id"]
  upsert := true

/-- The `import_deliveries` table data. -/
def deliveriesSpec : TableSpec where
  target := "deliveries"
  cols := ["delivery_id", "truck_id", "scheduled_departure_utc", "scheduled_arrival_utc",
           "origin_name", "origin_lat", "origin_lon", "destination_name",
           "destination_lat", "destination_lon", "priority", "commodity",
           "per_km_cost_rand", "per_hour_cost_rand"]
  casts := [("scheduled_departure_utc", "NULLIF({col}, '')::TIMESTAMPTZ"),
            ("scheduled_arrival_utc", "NULLIF({col}, '')::TIMESTAMPTZ"),
            ("origin_lat", "NULLIF({col}, '')::NUMERIC(9,6)"),
            ("origin_lon", "NULLIF({col}, '')::NUMERIC(9,6)"),
            ("destination_lat", "NULLIF({col}, '')::NUMERIC(9,6)"),
            ("destination_lon", "NULLIF({col}, '')::NUMERIC(9,6)"),
            ("priority", "gauteng.priority_enum({col})"),
            ("per_km_cost_rand", "NULLIF({col}, '')::NUMERIC(10,2)"),
            ("per_hour_cost_rand", "NULLIF({col}, '')::NUMERIC(10,2)")]
  keyCols := ["delivery_id"]
  upsert := true

/-- The `import_assignments` table data. -/
def assignmentsSpec : TableSpec where
  target := "assignments"
  cols := ["assignment_id", "delivery_id", "planned_departure_utc", "planned_arrival_utc",
           "planned_distance_km", "planned_duration_min", "route_segments", "status",
           "reason"]
  casts := [("planned_departure_utc", "NULLIF({col}, '')::TIMESTAMPTZ"),
            ("planned_arrival_utc", "NULLIF({col}, '')::TIMESTAMPTZ"),
            ("planned_distance_km", "NULLIF({col}, '')::NUMERIC(8,1)"),
            ("planned_duration_min", "NULLIF({col}, '')::INT"),
            ("route_segments", "NULLIF({col}, '')::JSONB"),
            ("status", "gauteng.assign_status_enum({col})")]
  keyCols := ["assignment_id"]
  upsert := true

/-- The `import_historical_speeds` table data. -/
def historicalSpeedsSpec : TableSpec where
  target := "historical_speeds"
  cols := ["segment_id", "timestamp", "avg_speed_kph", "pct_freeflow",
           "vehicle_count", "interval_minutes", "source"]
  casts := [("timestamp", "CAST({col} AS TIMESTAMPTZ)"),
            ("avg_speed_kph", "NULLIF({col}, '')::NUMERIC(6,1)"),
            ("pct_freeflow", "NULLIF({col}, '')::NUMERIC(5,3)"),
            ("vehicle_count", "NULLIF({col}, '')::INT"),
            ("interval_minutes", "NULLIF({col}, '')::INT")]
  keyCols := ["segment_id", "timestamp"]
  upsert := true

/-- The `import_incidents` table data. -/
def incidentsSpec : TableSpec where
  target := "incidents"
  cols := ["incident_id", "timestamp", "type", "severity", "lat", "lon",
           "affected_segment_id", "description", "source"]
  casts := [("timestamp", "CAST({col} AS TIMESTAMPTZ)"),
            ("type", "gauteng.incident_enum({col})"),
            ("severity", "NULLIF({col}, '')::INT"),
            ("lat", "NULLIF({col}, '')::NUMERIC(9,6)"),
            ("lon", "NULLIF({col}, '')::NUMERIC(9,6)")]
  keyCols := ["incident_id"]
  upsert := true

/-- The `import_weather` table data. -/
def weatherSpec : TableSpec where
  target := "weather"
  cols := ["station_id", "timestamp", "lat", "lon", "temperature_c", "precip_mm_h",
           "wind_kph", "visibility_km", "wx_condition", "nearest_segment_id"]
  casts := [("timestamp", "CAST({col} AS TIMESTAMPTZ)"),
            ("lat", "CAST({col} AS NUMERIC(9,6))"),
            ("lon", "CAST({col} AS NUMERIC(9,6))"),
            ("temperature_c", "NULLIF({col}, '')::NUMERIC(5,2)"),
            ("precip_mm_h", "NULLIF({col}, '')::NUMERIC(6,2)"),
            ("wind_kph", "NULLIF({col}, '')::NUMERIC(6,2)"),
            ("visibility_km", "NULLIF({col}, '')::NUMERIC(6,2)"),
            ("wx_condition", "gauteng.wx_enum({col})")]
  keyCols := ["station_id", "timestamp"]
  upsert := true

/-- The `steps` list of `main`, in its dependency order. -/
def tableSteps : List (String × TableSpec) :=
  [("roads", roadsSpec), ("truck_profiles", truckProfilesSpec),
   ("deliveries", deliveriesSpec), ("assignments", assignmentsSpec),
   ("historical_speeds", historicalSpeedsSpec), ("incidents", incidentsSpec),
   ("weather", weatherSpec)]

/-! ## Semantics of the cast expressions applied by `INSERT ... SELECT`. -/

/-- The leading text of every `NULLIF`-guarded cast template in `import.py`. -/
def nullifLead : String := "NULLIF({col}, '')::"

/-- The leading text of every plain-`CAST` template in `import.py`. -/
def castLead : String := "CAST({col} AS "

/-- Whether a cast template guards its column with `NULLIF({col}, '')`, i.e.
turns the empty string into SQL NULL before any parsing happens. -/
def emptyNullGuarded (tmpl : String) : Bool := strStartsWith tmpl nullifLead

/-- Postgres numeric input syntax, restricted to the plain decimal literals
relevant here: optional sign, digits, at most one decimal point, at least one
digit.  The empty string is not numeric text. -/
def numericTextOk (s : String) : Bool :=
  let s1 := if strStartsWith s ("-") || strStartsWith s ("+") then strDrop s 1 else s
  match strSplitOn s1 '.' with
  | [a] => a.length > 0 && a.data.all Char.isDigit
  | [a, b] =>
    (a.length > 0 || b.length > 0) && a.data.all Char.isDigit && b.data.all Char.isDigit
  | _ => false

/-- Postgres integer input syntax: optional sign followed by digits. -/
def intTextOk (s : String) : Bool :=
  let s1 := if strStartsWith s ("-") || strStartsWith s ("+") then strDrop s 1 else s
  s1.length > 0 && s1.data.all Char.isDigit

/-- Parameters of the database semantics that the files under `src/` do not
determine.  Modelled from the spec: the enum-valued columns are routed through
validating SQL functions (`road_enum`, `incident_enum`, `wx_enum`,
`priority_enum`, `assign_status_enum`) that live in the database schema, not in
the repository's Python sources; the spec describes them as validating lookups
into a fixed vocabulary that fail the statement on an unknown token.  The
`TIMESTAMPTZ` input grammar is likewise kept abstract. -/
structure PgSem where
  tsOk : String → Bool
  enumCast : String → Option String → Except Unit (Option String)

/-- Parsing one nonempty text value at a given SQL target type. -/
def parseTypedText (sem : PgSem) (ty : String) (s : String) : Except Unit (Option String) :=
  if strStartsWith ty ("NUMERIC") then
    if numericTextOk s then Except.ok (some s) else Except.error ()
  else if ty = "INT" then
    if intTextOk s then Except.ok (some s) else Except.error ()
  else if ty = "TIMESTAMPTZ" then
    if sem.tsOk s then Except.ok (some s) else Except.error ()
  else if ty = "JSONB" then
    if isValidJson s then Except.ok (some s) else Except.error ()
  else Except.error ()

/-- Evaluate one select-list expression of the `INSERT ... SELECT` built by
`copy_with_temp` on one staging-table cell (`none` is SQL NULL).  A column
without a cast template passes through as raw text; `NULLIF({col}, '')::T`
yields NULL on NULL or empty input and otherwise parses; `CAST({col} AS T)`
yields NULL on NULL and otherwise parses (so the empty string reaches the
parser); an enum-function template applies the schema's function. -/
def castCell (sem : PgSem) (tmpl : Option String) (v : Option String) :
    Except Unit (Option String) :=
  match tmpl with
  | none => Except.ok v
  | some t =>
    if strStartsWith t nullifLead then
      match v with
      | none => Except.ok none
      | some s =>
        if s = "" then Except.ok none
        else parseTypedText sem (strDrop t nullifLead.length) s
    else if strStartsWith t castLead then
      match v with
      | none => Except.ok none
      | some s => parseTypedText sem (strDropRight (strDrop t castLead.length) 1) s
    else sem.enumCast t v

/-- A staged or target row: one optional text value per column. -/
abbrev Row := List (Option String)

/-- Cast every cell of a staged row per its column's template. -/
def castRow (sem : PgSem) (spec : TableSpec) (row : Row) : Except Unit Row :=
  (spec.cols.zip row).mapM (fun cv => castCell sem (spec.casts.lookup cv.1) cv.2)

/-- Cast every staged row; the whole `INSERT ... SELECT` statement fails if any
row's cast fails. -/
def castRows (sem : PgSem) (spec : TableSpec) : List Row → Except Unit (List Row)
  | [] => Except.ok []
  | r :: rest =>
    match castRow sem spec r, castRows sem spec rest with
    | Except.error e, _ => Except.error e
    | Except.ok _, Except.error e => Except.error e
    | Except.ok cr, Except.ok crs => Except.ok (cr :: crs)

/-! ## The connection state and the staged load `copy_with_temp`. -/

/-- The tables visible on the connection: an association of fully qualified
table names to row lists.  While the run's transaction is open this is the
transaction's pending view; `main` commits it only when the whole `with
eng.begin()` block exits normally. -/
abbrev Db := List (String × List Row)

def dbLookup : Db → String → Option (List Row)
  | [], _ => none
  | (n, rs) :: rest, t => if n = t then some rs else dbLookup rest t

/-- Bind a table name to rows, replacing an existing binding in place or
appending a new one. -/
def dbSet : Db → String → List Row → Db
  | [], t, rows => [(t, rows)]
  | (n, rs) :: rest, t, rows =>
    if n = t then (t, rows) :: rest else (n, rs) :: dbSet rest t rows

/-- `DROP TABLE IF EXISTS`: remove a binding if present. -/
def dbDrop : Db → String → Db
  | [], _ => []
  | (n, rs) :: rest, t => if n = t then dbDrop rest t else (n, rs) :: dbDrop rest t

/-- `CREATE TABLE`: fails if the name is already bound. -/
def createTable (db : Db) (t : String) : Option Db :=
  match dbLookup db t with
  | some _ => none
  | none => some (dbSet db t [])

/-- The uniqueness-key tuple of a row, projected per the spec's key columns.
Modelled from the spec: the unique constraints backing `ON CONFLICT` live in
the database DDL, which is not part of the repository's Python sources; the
spec describes the resolver as insert-if-absent keyed on the table's
uniqueness key, which we model as equality of these key tuples. -/
def keyOf (spec : TableSpec) (row : Row) : List (Option String) :=
  spec.keyCols.map (fun k => (row.get? (spec.cols.indexOf k)).getD none)

/-- `ON CONFLICT (key) DO NOTHING` semantics: rows are inserted in order and a
row whose key tuple already occurs in the table (or earlier in the batch) is
silently skipped. -/
def upsertInsert (spec : TableSpec) (existing newRows : List Row) : List Row :=
  newRows.foldl
    (fun acc r => if (acc.map (keyOf spec)).contains (keyOf spec r) then acc else acc ++ [r])
    existing

/-- One call of `copy_with_temp` on the open connection, step for step:
drop any leftover staging table, create the staging table, `COPY` the rows in
(which fails on a column-count mismatch), run the casting `INSERT ... SELECT`
with optional `ON CONFLICT DO NOTHING`, then drop the staging table.  The
function body has no try/finally: on a failing statement the exception
propagates immediately, and `Except.error` carries the connection state at
that point. -/
def copyWithTempState (sem : PgSem) (spec : TableSpec) (rows : List Row) (st0 : Db) :
    Except Db Db :=
  let tmp := fqName (tmpName spec.target)
  let target := fqName spec.target
  let st1 := dbDrop st0 tmp
  match createTable st1 tmp with
  | none => Except.error st1
  | some st2 =>
    if rows.all (fun r => r.length = spec.cols.length) then
      let st3 := dbSet st2 tmp rows
      match castRows sem spec rows with
      | Except.error _ => Except.error st3
      | Except.ok crows =>
        match dbLookup st3 target with
        | none => Except.error st3
        | some existing =>
          let newRows :=
            if spec.upsert && !spec.keyCols.isEmpty then upsertInsert spec existing crows
            else existing ++ crows
          Except.ok (dbDrop (dbSet st3 target newRows) tmp)
    else Except.error st2

/-! ## The orchestration loop of `main`.

`main` opens one `with eng.begin() as conn:` block and runs every table's
load on that single connection inside it, so the whole run is one
transaction: the pending state commits only if every step returns normally,
and any exception rolls the entire run back. -/

inductive TStatus where
  | loaded : TStatus
  | skipped : TStatus
  deriving Repr, DecidableEq

/-- The loop over `steps` inside the transaction.  A missing source file
(`input n = none`) records a skip and continues; a failing import aborts the
loop with the offending table's name. -/
def runTables (sem : PgSem) (input : String → Option (List Row)) :
    List (String × TableSpec) → Db → List (String × TStatus) →
    Except String (List (String × TStatus) × Db)
  | [], pending, acc => Except.ok (acc.reverse, pending)
  | (n, sp) :: rest, pending, acc =>
    match input n with
    | none => runTables sem input rest pending ((n, TStatus.skipped) :: acc)
    | some rows =>
      match copyWithTempState sem sp rows pending with
      | Except.error _ => Except.error n
      | Except.ok pending2 => runTables sem input rest pending2 ((n, TStatus.loaded) :: acc)

/-- One run of `main`: the loop runs in a single transaction over the
committed state `db`; on normal completion the pending state commits, on an
exception the transaction rolls back and the committed state is unchanged. -/
def runMain (sem : PgSem) (input : String → Option (List Row)) (db : Db) :
    Except String (List (String × TStatus)) × Db :=
  match runTables sem input tableSteps db [] with
  | Except.ok (sts, pending) => (Except.ok sts, pending)
  | Except.error n => (Except.error n, db)

/-! ## Concrete instances used to exercise the model. -/

/-- A concrete instance of the abstract database parameters: timestamps parse
iff nonempty, enum functions accept every token. -/
def demoSem : PgSem where
  tsOk := fun s => decide (0 < s.length)
  enumCast := fun _ v => Except.ok v

/-- A committed state in which every target table exists and is empty. -/
def dbReady : Db := tableSteps.map (fun p => (fqName p.2.target, []))

/-! ## The pandas header normalization of `import_roads`. -/

/-- A DataFrame in column-major form: a row count and an ordered list of
(label, values) columns.  pandas permits duplicate labels, which the list
representation captures. -/
structure Df where
  nrows : Nat
  cols : List (String × List String)
  deriving Repr, DecidableEq

def dfNames (df : Df) : List String := df.cols.map Prod.fst

/-- Every column holds one value per row. -/
def dfWF (df : Df) : Prop := ∀ p ∈ df.cols, p.2.length = df.nrows

/-- The `alias` dictionary of `import_roads`; `none` marks the entries mapped
to Python `None` ("drop if present"). -/
def roadsAlias : List (String × Option String) :=
  [("segment", some ("segment_id")), ("segmentID", some ("segment_id")),
   ("seg_id", some ("segment_id")), ("road", some ("road_id")),
   ("roadID", some ("road_id")), ("road_name", none), ("name", none),
   ("from_latitude", some ("from_lat")), ("from_longitude", some ("from_lon")),
   ("to_latitude", some ("to_lat")), ("to_longitude", some ("to_lon")),
   ("length_meters", some ("length_m")), ("length", some ("length_m")),
   ("speed_limit", some ("speed_limit_kph")), ("one_way", some ("oneway")),
   ("city", some ("municipality")), ("muni", some ("municipality")),
   ("state", some ("province")), ("prov", some ("province"))]

/-- `rename_map = {c: alias[c] for c in df.columns if c in alias and alias[c]}`:
a header is renamed only when the alias dictionary maps it to a truthy value. -/
def resolveRoadsName (c : String) : String :=
  match roadsAlias.lookup c with
  | some (some n) => n
  | _ => c

/-- `df = df.rename(columns=rename_map)`. -/
def renameRoads (df : Df) : Df :=
  ⟨df.nrows, df.cols.map (fun p => (resolveRoadsName p.1, p.2))⟩

/-- `df = df[[c for c in df.columns if c in keep]]` with `keep = set(cols)`:
the comprehension lists every kept label once per column bearing it, and
pandas label-based selection returns, for each requested label, every column
with that label — so with duplicate post-rename labels the kept columns are
repeated per request. -/
def keepRoads (df : Df) : Df :=
  ⟨df.nrows,
   ((df.cols.map Prod.fst).filter (fun c => roadsSpec.cols.contains c)).flatMap
     (fun c => df.cols.filter (fun p => p.1 = c))⟩

/-- The column-append loop `for c in cols: if c not in df.columns: df[c] = ""`,
generalized over the column list: each absent label is appended at the end,
broadcasting the empty string to every row. -/
def fillWith (v : List String) (cs : List String)
    (d : List (String × List String)) : List (String × List String) :=
  cs.foldl (fun acc c => if (acc.map Prod.fst).contains c then acc else acc ++ [(c, v)]) d

def fillMissingRoads (df : Df) : Df :=
  ⟨df.nrows, fillWith (List.replicate df.nrows "") roadsSpec.cols df.cols⟩

/-- `df = df[cols]`: label-based selection in canonical order; for each
requested label pandas returns every column bearing it, in their original
order. -/
def reorderRoads (df : Df) : Df :=
  ⟨df.nrows, roadsSpec.cols.flatMap (fun c => df.cols.filter (fun p => p.1 = c))⟩

/-- The whole header normalization of `import_roads`: rename aliases, keep
only canonical labels, fill absent canonical columns with the empty string,
reorder to the canonical order. -/
def normalizeRoads (df : Df) : Df :=
  reorderRoads (fillMissingRoads (keepRoads (renameRoads df)))

/-! ## What each importer stages (for header-reconciliation claims). -/

/-- The `COPY ... FROM STDIN WITH (FORMAT csv, HEADER true)` shape: the header
row is skipped, not matched by name, so staging-table columns are filled
positionally from the file; a column-count mismatch fails the `COPY`. -/
def stageByPosition (cols : List String) (df : Df) : Option Df :=
  if df.cols.length = cols.length then some ⟨df.nrows, cols.zip (df.cols.map Prod.snd)⟩
  else none

/-- The value coercion of `import_assignments`: if a `route_segments` column is
present, its values pass through `ensure_json` (a pandas-missing cell and an
empty text cell both come out as `"[]"`). -/
def coerceAssignments (df : Df) : Df :=
  ⟨df.nrows, df.cols.map (fun p =>
    if p.1 = "route_segments" then (p.1, p.2.map (fun s => ensureJsonVal (CellVal.text s)))
    else p)⟩

/-- The staging-table content each importer produces from a source DataFrame:
`import_roads` normalizes headers first and writes a reordered temp CSV; `import_assignments`
coerces the `route_segments` values but keeps the file's column order; every
other importer hands the source file to `COPY` unchanged. -/
def stagedDf (table : String) (df : Df) : Option Df :=
  if table = "roads" then stageByPosition roadsSpec.cols (normalizeRoads df)
  else if table = "assignments" then
    stageByPosition assignmentsSpec.cols (coerceAssignments df)
  else
    match tableSteps.lookup table with
    | some sp => stageByPosition sp.cols df
    | none => none

end SmartMobility

deriving instance DecidableEq for Except

namespace SmartMobility

/-! ## Claim C1: treatment of the empty string by the cast expressions. -/

/-- Claim C1 is false as stated: the cast rule of the roads column `from_lat`
targets `NUMERIC(9,6)` but is a plain `CAST` with no `NULLIF` guard, so an
empty-string staging value is handed to the numeric parser (which rejects it)
instead of being inserted as NULL. -/
theorem C1_counterexample :
    roadsSpec.casts.lookup "from_lat" = some ("CAST({col} AS NUMERIC(9,6))") ∧
    emptyNullGuarded "CAST({col} AS NUMERIC(9,6))" = false ∧
    castCell demoSem (some ("CAST({col} AS NUMERIC(9,6))")) (some "") = Except.error () := by
  refine ⟨by decide, by decide, by decide⟩

/-- Claim C1 (amended): an empty-string staging value becomes NULL exactly at
the columns whose cast template is `NULLIF`-guarded.  The columns with a
numeric/timestamp/enum cast that lack the guard — and therefore pass the empty
string to the parser or enum function — are precisely: roads' `from_lat`,
`from_lon`, `to_lat`, `to_lon` and `road_type`; `deliveries.priority`;
`assignments.status`; `historical_speeds.timestamp`; incidents' `timestamp`
and `type`; and weather's `timestamp`, `lat`, `lon` and `wx_condition`.
Every `NULLIF`-guarded template maps the empty string to NULL under every
database semantics. -/
theorem C1_empty_null_exactly_guarded :
    tableSteps.map
        (fun p => (p.1, (p.2.casts.filter (fun ct => !emptyNullGuarded ct.2)).map Prod.fst)) =
      [("roads", ["from_lat", "from_lon", "to_lat", "to_lon", "road_type"]),
       ("truck_profiles", []), ("deliveries", ["priority"]), ("assignments", ["status"]),
       ("historical_speeds", ["timestamp"]), ("incidents", ["timestamp", "type"]),
       ("weather", ["timestamp", "lat", "lon", "wx_condition"])] ∧
    ∀ sem : PgSem, ∀ t : String, emptyNullGuarded t = true →
      castCell sem (some t) (some "") = Except.ok none := by
  constructor
  · decide
  · intro sem t h
    simp only [emptyNullGuarded] at h
    simp [castCell, h]

/-- Witness for `C1_empty_null_exactly_guarded` at the `lanes` cast of roads. -/
theorem C1_witness :
    emptyNullGuarded "NULLIF({col}, '')::INT" = true ∧
    castCell demoSem (some ("NULLIF({col}, '')::INT")) (some "") = Except.ok none := by
  exact ⟨by decide, C1_empty_null_exactly_guarded.2 demoSem ("NULLIF({col}, '')::INT") (by decide)⟩

/-! ## Claim C7: the field coercer's mappings. -/

/-- Claim C7 is false as stated: `ensure_json` maps `"A,B,C"` to
`'["A", "B", "C"]'` (with `json.dumps`'s comma-space separator), not to
`'["A","B","C"]'`; and a bracket-delimited value is passed through without
validation, so the output is not always valid JSON array/object text —
`"[a b]"` comes out unchanged and is not valid JSON. -/
theorem C7_counterexample :
    ensureJsonVal (CellVal.text ("A,B,C")) = "[\"A\", \"B\", \"C\"]" ∧
    ("[\"A\", \"B\", \"C\"]" : String) ≠ "[\"A\",\"B\",\"C\"]" ∧
    ensureJsonVal (CellVal.text ("[a b]")) = "[a b]" ∧
    isValidJson "[a b]" = false := by
  refine ⟨by decide, by decide, by decide, by decide⟩

/-- Claim C7 (amended): `ensure_json` maps `""` to `"[]"`, maps `"A,B,C"` to
`'["A", "B", "C"]'` (items separated by comma and space), and passes text that
is bracket- or brace-delimited after trimming through as the trimmed text,
without validating it; the empty-string and comma-split branches do produce
valid JSON array text. -/
theorem C7_field_coercer_mappings :
    ensureJsonVal (CellVal.text ("")) = "[]" ∧
    ensureJsonVal (CellVal.text ("A,B,C")) = "[\"A\", \"B\", \"C\"]" ∧
    ensureJsonVal (CellVal.text ("[\"X\"]")) = "[\"X\"]" ∧
    ensureJsonVal (CellVal.text ("  [\"X\"]  ")) = "[\"X\"]" ∧
    isValidJson "[]" = true ∧
    isValidJson "[\"A\", \"B\", \"C\"]" = true := by
  refine ⟨by decide, by decide, by decide, by decide, by decide, by decide⟩

/-! ## Claim C10: the comma-splitting branch and missing values. -/

/-- Claim C10 is false only in the exact array text it predicts: the tokens of
`"A,,B"` are `["A", "B"]`, but `json.dumps` renders them as `'["A", "B"]'`
(comma-space separator), not `'["A","B"]'`. -/
theorem C10_counterexample :
    ensureJsonVal (CellVal.text ("A,,B")) = "[\"A\", \"B\"]" ∧
    ("[\"A\", \"B\"]" : String) ≠ "[\"A\",\"B\"]" := by
  refine ⟨by decide, by decide⟩

/-- Claim C10 (amended): on a value that is not missing, not bracket- or
brace-delimited after trimming and not empty after trimming, `ensure_json`
splits the trimmed text on commas, strips every token and drops tokens that
are empty after stripping, serializing the remainder with `json.dumps` (whose
default item separator is comma-space); a missing value is coerced to `"[]"`. -/
theorem C10_comma_split_tokens :
    (∀ s : String, delimitedText (strTrim s) = false → strTrim s ≠ "" →
      ensureJsonVal (CellVal.text s) =
        pyDumpsStrList (((strSplitOn (strTrim s) ',').map strTrim).filter (fun x => x ≠ ""))) ∧
    ensureJsonVal CellVal.na = "[]" ∧
    ensureJsonVal (CellVal.text ("A, ,B,")) = "[\"A\", \"B\"]" := by
  refine ⟨?_, by decide, by decide⟩
  intro s h1 h2
  simp [ensureJsonVal, fillnaVal, h1, h2]

/-- Witness for `C10_comma_split_tokens` at the input `"A, ,B,"`. -/
theorem C10_witness :
    delimitedText (strTrim ("A, ,B,")) = false ∧
    (strTrim ("A, ,B,") ≠ "") ∧
    ensureJsonVal (CellVal.text ("A, ,B,")) =
      pyDumpsStrList (((strSplitOn (strTrim ("A, ,B,")) ',').map strTrim).filter
        (fun x => x ≠ "")) := by
  exact ⟨by decide, by decide, C10_comma_split_tokens.1 ("A, ,B,") (by decide) (by decide)⟩

/-! ## Lemmas about the connection state. -/

theorem dbLookup_dbDrop_self (db : Db) (t : String) : dbLookup (dbDrop db t) t = none := by
  induction db with
  | nil => rfl
  | cons p rest ih =>
    rcases p with ⟨n, rs⟩
    by_cases h : n = t
    · simpa [dbDrop, h] using ih
    · simpa [dbDrop, dbLookup, h] using ih

theorem dbLookup_dbDrop_ne (db : Db) (t u : String) (h : u ≠ t) :
    dbLookup (dbDrop db t) u = dbLookup db u := by
  induction db with
  | nil => rfl
  | cons p rest ih =>
    rcases p with ⟨n, rs⟩
    by_cases hn : n = t
    · subst hn
      have hnu : ¬ n = u := fun e => h e.symm
      simp [dbDrop, dbLookup, hnu, ih]
    · simp [dbDrop, dbLookup, hn, ih]

theorem dbLookup_dbSet_self (db : Db) (t : String) (rows : List Row) :
    dbLookup (dbSet db t rows) t = some rows := by
  induction db with
  | nil => simp [dbSet, dbLookup]
  | cons p rest ih =>
    rcases p with ⟨n, rs⟩
    by_cases h : n = t
    · simp [dbSet, dbLookup, h]
    · simp [dbSet, dbLookup, h, ih]

theorem dbLookup_dbSet_ne (db : Db) (t u : String) (rows : List Row) (h : u ≠ t) :
    dbLookup (dbSet db t rows) u = dbLookup db u := by
  have htu : ¬ t = u := fun e => h e.symm
  induction db with
  | nil => simp [dbSet, dbLookup, htu]
  | cons p rest ih =>
    rcases p with ⟨n, rs⟩
    by_cases hn : n = t
    · subst hn
      simp [dbSet, dbLookup, htu]
    · simp [dbSet, dbLookup, hn, ih]

theorem createTable_after_drop (db : Db) (t : String) :
    createTable (dbDrop db t) t = some (dbSet (dbDrop db t) t []) := by
  simp [createTable, dbLookup_dbDrop_self]

theorem castRows_error_of_mem (sem : PgSem) (sp : TableSpec) {r : Row} {rows : List Row}
    (hr : r ∈ rows) (hbad : castRow sem sp r = Except.error ()) :
    castRows sem sp rows = Except.error () := by
  induction rows with
  | nil => cases hr
  | cons a rest ih =>
    rcases List.mem_cons.mp hr with rfl | htail
    · simp [castRows, hbad]
    · have h2 := ih htail
      cases h1 : castRow sem sp a
      · simp [castRows, h1]
      · simp [castRows, h1, h2]

theorem copyWithTemp_error_of_badRow (sem : PgSem) (sp : TableSpec) (rows : List Row)
    (st : Db) (r : Row) (hr : r ∈ rows) (hbad : castRow sem sp r = Except.error ()) :
    ∃ stE, copyWithTempState sem sp rows st = Except.error stE := by
  unfold copyWithTempState
  simp only [createTable_after_drop]
  by_cases ha : rows.all (fun r => r.length = sp.cols.length)
  · simp only [ha, if_true, castRows_error_of_mem sem sp hr hbad]
    exact ⟨_, rfl⟩
  · simp only [Bool.not_eq_true] at ha
    simp only [ha, Bool.false_eq_true, if_false]
    exact ⟨_, rfl⟩

theorem copyWithTemp_ok_no_staging (sem : PgSem) (sp : TableSpec) (rows : List Row)
    (st st' : Db) (h : copyWithTempState sem sp rows st = Except.ok st') :
    dbLookup st' (fqName (tmpName sp.target)) = none := by
  unfold copyWithTempState at h
  simp only [createTable_after_drop] at h
  by_cases ha : rows.all (fun r => r.length = sp.cols.length)
  · simp only [ha, if_true] at h
    cases hc : castRows sem sp rows with
    | error e => rw [hc] at h; cases h
    | ok crows =>
      rw [hc] at h
      cases hl : dbLookup (dbSet (dbSet (dbDrop st (fqName (tmpName sp.target)))
          (fqName (tmpName sp.target)) []) (fqName (tmpName sp.target)) rows)
          (fqName sp.target) with
      | none => rw [hl] at h; cases h
      | some existing =>
        rw [hl] at h
        have := (Except.ok.injEq _ _).mp h
        rw [← this]
        exact dbLookup_dbDrop_self _ _
  · simp only [Bool.not_eq_true] at ha
    simp only [ha, Bool.false_eq_true, if_false] at h
    cases h

theorem runTables_error_of_badRow (sem : PgSem) (input : String → Option (List Row))
    (steps : List (String × TableSpec)) (pending : Db) (acc : List (String × TStatus))
    (n : String) (sp : TableSpec) (rows : List Row) (r : Row)
    (hmem : (n, sp) ∈ steps) (hin : input n = some rows)
    (hr : r ∈ rows) (hbad : castRow sem sp r = Except.error ()) :
    ∃ m, runTables sem input steps pending acc = Except.error m := by
  induction steps generalizing pending acc with
  | nil => cases hmem
  | cons p rest ih =>
    rcases p with ⟨n1, sp1⟩
    rcases List.mem_cons.mp hmem with heq | htail
    · injection heq with e1 e2
      subst e1
      subst e2
      obtain ⟨stE, hcw⟩ := copyWithTemp_error_of_badRow sem sp rows pending r hr hbad
      exact ⟨n, by simp [runTables, hin, hcw]⟩
    · cases hI : input n1 with
      | none => simpa [runTables, hI] using ih pending ((n1, TStatus.skipped) :: acc) htail
      | some rows1 =>
        cases hcw : copyWithTempState sem sp1 rows1 pending with
        | error stE => exact ⟨n1, by simp [runTables, hI, hcw]⟩
        | ok pending2 =>
          simpa [runTables, hI, hcw] using
            ih pending2 ((n1, TStatus.loaded) :: acc) htail

theorem runMain_rollback (sem : PgSem) (input : String → Option (List Row)) (db : Db)
    (n : String) (h : (runMain sem input db).1 = Except.error n) :
    (runMain sem input db).2 = db := by
  unfold runMain at h ⊢
  cases hr : runTables sem input tableSteps db [] with
  | ok p => rw [hr] at h; simp at h
  | error m => simp [hr]

/-! ## Claim C2: transaction structure of a run. -/

def c2RoadsRow : Row :=
  [some "S1", some "R1", some "1.5", some "2.5", some "1.6", some "2.6",
   some "100.0", some "primary", some "2", some "60", some "0", some "JHB", some "GP"]

def c2TruckRowBad : Row := [some "T1", some "abc", some "3.5", some "2.5", some "0"]

def c2InputBoth : String → Option (List Row) :=
  fun n =>
    if n = "roads" then some [c2RoadsRow]
    else if n = "truck_profiles" then some [c2TruckRowBad] else none

def c2InputRoadsOnly : String → Option (List Row) :=
  fun n => if n = "roads" then some [c2RoadsRow] else none

/-- Claim C2 is false as stated: `main` opens a single transaction around all
tables.  In a run where the roads insert succeeds (it commits one row when the
run contains only roads) and the later truck_profiles insert fails, the run
aborts and the committed state is exactly the initial state — the roads table
is left empty, so the earlier table's rows do not remain. -/
theorem C2_counterexample :
    (runMain demoSem c2InputBoth dbReady).1 = Except.error "truck_profiles" ∧
    (runMain demoSem c2InputBoth dbReady).2 = dbReady ∧
    dbLookup (runMain demoSem c2InputBoth dbReady).2 (fqName "roads") = some [] ∧
    dbLookup (runMain demoSem c2InputRoadsOnly dbReady).2 (fqName "roads") = some [c2RoadsRow] := by
  refine ⟨by decide, by decide, by decide, by decide⟩

/-- Claim C2 (amended): the whole run executes in one transaction spanning all
tables; nothing commits until every present table has loaded, and a later
table's failure rolls back every earlier table's inserts of the same run, so
an aborted run leaves the committed state exactly as it was before the run. -/
theorem C2_single_transaction (sem : PgSem) (input : String → Option (List Row))
    (db : Db) (n : String) (h : (runMain sem input db).1 = Except.error n) :
    (runMain sem input db).2 = db :=
  runMain_rollback sem input db n h

/-- Witness for `C2_single_transaction` on the two-table failing run. -/
theorem C2_witness :
    (runMain demoSem c2InputBoth dbReady).1 = Except.error "truck_profiles" ∧
    (runMain demoSem c2InputBoth dbReady).2 = dbReady :=
  ⟨by decide, C2_single_transaction demoSem c2InputBoth dbReady "truck_profiles" (by decide)⟩

/-! ## Claim C3: a failing cast aborts the table with nothing committed. -/

def c3BadRow : Row :=
  [some "I1", some "2024-01-01", some "accident", some "xx", some "1.1", some "2.2",
   some "S1", some "desc", some "feed"]

def c3Input : String → Option (List Row) :=
  fun n => if n = "incidents" then some [c3BadRow] else none

/-- Claim C3: if any staged row of a table fails its cast, the run surfaces an
error to the orchestrator and the committed state is unchanged — in particular
zero rows are committed into that table (the offending row is neither coerced
to NULL nor dropped). -/
theorem C3_bad_row_aborts_table (sem : PgSem) (input : String → Option (List Row))
    (db : Db) (n : String) (sp : TableSpec) (rows : List Row) (r : Row)
    (hmem : (n, sp) ∈ tableSteps) (hin : input n = some rows)
    (hr : r ∈ rows) (hbad : castRow sem sp r = Except.error ()) :
    (∃ m, (runMain sem input db).1 = Except.error m) ∧
    (runMain sem input db).2 = db ∧
    dbLookup (runMain sem input db).2 (fqName sp.target) = dbLookup db (fqName sp.target) := by
  obtain ⟨m, hm⟩ :=
    runTables_error_of_badRow sem input tableSteps db [] n sp rows r hmem hin hr hbad
  have h1 : (runMain sem input db).1 = Except.error m := by simp [runMain, hm]
  have h2 := runMain_rollback sem input db m h1
  exact ⟨⟨m, h1⟩, h2, by rw [h2]⟩

/-- Witness for `C3_bad_row_aborts_table`: an incidents row whose `severity`
is non-numeric text. -/
theorem C3_witness :
    (("incidents", incidentsSpec) ∈ tableSteps) ∧
    c3Input "incidents" = some [c3BadRow] ∧
    c3BadRow ∈ [c3BadRow] ∧
    castRow demoSem incidentsSpec c3BadRow = Except.error () ∧
    ((∃ m, (runMain demoSem c3Input dbReady).1 = Except.error m) ∧
     (runMain demoSem c3Input dbReady).2 = dbReady ∧
     dbLookup (runMain demoSem c3Input dbReady).2 (fqName incidentsSpec.target) =
       dbLookup dbReady (fqName incidentsSpec.target)) :=
  ⟨by decide, by decide, by decide, by decide,
   C3_bad_row_aborts_table demoSem c3Input dbReady "incidents" incidentsSpec [c3BadRow]
     c3BadRow (by decide) (by decide) (by decide) (by decide)⟩

/-! ## Claim C4: staging-table cleanup on the exit paths of `copy_with_temp`. -/

def c4BadRow : Row := [some "T1", some "abc", some "3.5", some "2.5", some "0"]

def c4GoodRow : Row := [some "T1", some "3.5", some "3.1", some "2.5", some "1"]

/-- Claim C4 is false as stated: `copy_with_temp` has no try/finally, so on the
cast-failure exit path its final `DROP TABLE` never executes — the staging
table is still present in the connection state carried out by the exception. -/
theorem C4_counterexample :
    copyWithTempState demoSem truckProfilesSpec [c4BadRow] dbReady =
      Except.error (dbReady ++ [(fqName (tmpName "truck_profiles"), [c4BadRow])]) ∧
    dbLookup (dbReady ++ [(fqName (tmpName "truck_profiles"), [c4BadRow])])
      (fqName (tmpName "truck_profiles")) = some [c4BadRow] := by
  refine ⟨by decide, by decide⟩

/-- Claim C4 (amended): the staging table is dropped on the successful exit
path of `copy_with_temp` but not on its error paths; nevertheless no staging
table outlives the run, because an aborted run's transaction rollback restores
the pre-run state (undoing the staging table's creation), and each call begins
by dropping any left-over staging table of the same name. -/
theorem C4_staging_cleanup :
    (∀ (sem : PgSem) (sp : TableSpec) (rows : List Row) (st st' : Db),
      copyWithTempState sem sp rows st = Except.ok st' →
      dbLookup st' (fqName (tmpName sp.target)) = none) ∧
    (∀ (sem : PgSem) (input : String → Option (List Row)) (db : Db) (n : String),
      (runMain sem input db).1 = Except.error n →
      ∀ t : String, dbLookup (runMain sem input db).2 (fqName (tmpName t)) =
        dbLookup db (fqName (tmpName t))) := by
  constructor
  · exact fun sem sp rows st st' h => copyWithTemp_ok_no_staging sem sp rows st st' h
  · intro sem input db n h t
    rw [runMain_rollback sem input db n h]

/-- Witness for `C4_staging_cleanup` on a successful truck_profiles load. -/
theorem C4_witness :
    copyWithTempState demoSem truckProfilesSpec [c4GoodRow] dbReady =
      Except.ok (dbSet dbReady (fqName "truck_profiles") [c4GoodRow]) ∧
    dbLookup (dbSet dbReady (fqName "truck_profiles") [c4GoodRow])
      (fqName (tmpName "truck_profiles")) = none :=
  ⟨by decide,
   C4_staging_cleanup.1 demoSem truckProfilesSpec [c4GoodRow] dbReady
     (dbSet dbReady (fqName "truck_profiles") [c4GoodRow]) (by decide)⟩

/-! ## Claim C5: idempotence of the upsert-enabled staged load. -/

theorem fq_tmp_ne_target (t : String) : fqName (tmpName t) ≠ fqName t := by
  intro h
  have hlen : (fqName (tmpName t)).length = (fqName t).length := congrArg String.length h
  simp only [fqName, tmpName, String.length_append] at hlen
  have hmk : (String.mk (t.data.map (fun c => if c = '.' then '_' else c))).length =
      t.length := by
    show (t.data.map (fun c => if c = '.' then '_' else c)).length = t.length
    rw [List.length_map]
    rfl
  rw [hmk] at hlen
  have h4 : ("tmp_" : String).length = 4 := rfl
  rw [h4] at hlen
  omega

theorem upsert_foldl_keys_mono (sp : TableSpec) (newR : List Row) :
    ∀ (acc : List Row) (k : List (Option String)), k ∈ acc.map (keyOf sp) →
      k ∈ (upsertInsert sp acc newR).map (keyOf sp) := by
  induction newR with
  | nil => intro acc k hk; simpa [upsertInsert] using hk
  | cons a rest ih =>
    intro acc k hk
    have hstep : upsertInsert sp acc (a :: rest) =
        upsertInsert sp
          (if (acc.map (keyOf sp)).contains (keyOf sp a) then acc else acc ++ [a]) rest := rfl
    rw [hstep]
    apply ih
    by_cases hc : (acc.map (keyOf sp)).contains (keyOf sp a)
    · rw [if_pos hc]; exact hk
    · rw [if_neg hc, List.map_append]; exact List.mem_append_left _ hk

theorem upsert_foldl_keys_present (sp : TableSpec) (newR : List Row) :
    ∀ (acc : List Row) (r : Row), r ∈ newR →
      keyOf sp r ∈ (upsertInsert sp acc newR).map (keyOf sp) := by
  induction newR with
  | nil => intro acc r hr; cases hr
  | cons a rest ih =>
    intro acc r hr
    have hstep : upsertInsert sp acc (a :: rest) =
        upsertInsert sp
          (if (acc.map (keyOf sp)).contains (keyOf sp a) then acc else acc ++ [a]) rest := rfl
    rcases List.mem_cons.mp hr with heq | htail
    · rw [heq, hstep]
      apply upsert_foldl_keys_mono
      by_cases hc : (acc.map (keyOf sp)).contains (keyOf sp a)
      · rw [if_pos hc]
        exact List.elem_iff.mp hc
      · rw [if_neg hc, List.map_append]
        exact List.mem_append_right _ (by simp)
    · rw [hstep]
      exact ih _ r htail

theorem upsert_foldl_stable (sp : TableSpec) (newR : List Row) :
    ∀ acc : List Row, (∀ r ∈ newR, keyOf sp r ∈ acc.map (keyOf sp)) →
      upsertInsert sp acc newR = acc := by
  induction newR with
  | nil => intro acc _; rfl
  | cons a rest ih =>
    intro acc h
    have hk : keyOf sp a ∈ acc.map (keyOf sp) := h a (List.mem_cons_self a rest)
    have hc : (acc.map (keyOf sp)).contains (keyOf sp a) = true := List.elem_iff.mpr hk
    have hstep : upsertInsert sp acc (a :: rest) =
        upsertInsert sp
          (if (acc.map (keyOf sp)).contains (keyOf sp a) then acc else acc ++ [a]) rest := rfl
    rw [hstep, if_pos hc]
    exact ih acc (fun r hr => h r (List.mem_cons_of_mem _ hr))

/-- Re-inserting the same batch on top of a `DO NOTHING` upsert is a no-op:
every key of the batch is already present after the first insert. -/
theorem upsertInsert_idem (sp : TableSpec) (existing crows : List Row) :
    upsertInsert sp (upsertInsert sp existing crows) crows =
      upsertInsert sp existing crows :=
  upsert_foldl_stable sp crows _ (fun r hr => upsert_foldl_keys_present sp crows existing r hr)

/-- Decomposition of a successful `copy_with_temp` call into its arity check,
cast results, prior target contents and resulting state. -/
theorem copyWithTemp_ok_shape (sem : PgSem) (sp : TableSpec) (rows : List Row)
    (st st1 : Db) (h : copyWithTempState sem sp rows st = Except.ok st1) :
    ∃ crows existing,
      rows.all (fun r => r.length = sp.cols.length) = true ∧
      castRows sem sp rows = Except.ok crows ∧
      dbLookup (dbSet (dbSet (dbDrop st (fqName (tmpName sp.target)))
          (fqName (tmpName sp.target)) []) (fqName (tmpName sp.target)) rows)
        (fqName sp.target) = some existing ∧
      st1 = dbDrop (dbSet (dbSet (dbSet (dbDrop st (fqName (tmpName sp.target)))
          (fqName (tmpName sp.target)) []) (fqName (tmpName sp.target)) rows)
        (fqName sp.target)
        (if sp.upsert && !sp.keyCols.isEmpty then upsertInsert sp existing crows
         else existing ++ crows))
        (fqName (tmpName sp.target)) := by
  unfold copyWithTempState at h
  simp only [createTable_after_drop] at h
  by_cases ha : rows.all (fun r => r.length = sp.cols.length)
  · simp only [ha, if_true] at h
    cases hc : castRows sem sp rows with
    | error e => rw [hc] at h; cases h
    | ok crows =>
      rw [hc] at h
      cases hl : dbLookup (dbSet (dbSet (dbDrop st (fqName (tmpName sp.target)))
          (fqName (tmpName sp.target)) []) (fqName (tmpName sp.target)) rows)
          (fqName sp.target) with
      | none => rw [hl] at h; cases h
      | some existing =>
        rw [hl] at h
        exact ⟨crows, existing, ha, rfl, rfl, ((Except.ok.injEq _ _).mp h).symm⟩
  · simp only [Bool.not_eq_true] at ha
    simp only [ha, Bool.false_eq_true, if_false] at h
    cases h

/-- Reconstruction of a successful `copy_with_temp` call from its pieces. -/
theorem copyWithTemp_ok_build (sem : PgSem) (sp : TableSpec) (rows : List Row)
    (st : Db) (crows existing : List Row)
    (ha : rows.all (fun r => r.length = sp.cols.length) = true)
    (hc : castRows sem sp rows = Except.ok crows)
    (hl : dbLookup (dbSet (dbSet (dbDrop st (fqName (tmpName sp.target)))
        (fqName (tmpName sp.target)) []) (fqName (tmpName sp.target)) rows)
        (fqName sp.target) = some existing) :
    copyWithTempState sem sp rows st = Except.ok
      (dbDrop (dbSet (dbSet (dbSet (dbDrop st (fqName (tmpName sp.target)))
          (fqName (tmpName sp.target)) []) (fqName (tmpName sp.target)) rows)
        (fqName sp.target)
        (if sp.upsert && !sp.keyCols.isEmpty then upsertInsert sp existing crows
         else existing ++ crows))
        (fqName (tmpName sp.target))) := by
  unfold copyWithTempState
  simp only [createTable_after_drop, ha, if_true, hc, hl]

/-- Claim C5: on an upsert-enabled table with key columns, running the same
staged load twice in succession succeeds the second time with no duplicate-key
error and leaves the target table exactly as after the first run (rows whose
key already exists are silently skipped; nothing is updated). -/
theorem C5_upsert_idempotent (sem : PgSem) (sp : TableSpec) (rows : List Row)
    (st st1 : Db) (hup : sp.upsert = true) (hkey : sp.keyCols ≠ [])
    (h1 : copyWithTempState sem sp rows st = Except.ok st1) :
    ∃ st2, copyWithTempState sem sp rows st1 = Except.ok st2 ∧
      dbLookup st2 (fqName sp.target) = dbLookup st1 (fqName sp.target) := by
  have hne : fqName sp.target ≠ fqName (tmpName sp.target) :=
    fun e => fq_tmp_ne_target sp.target e.symm
  have hkemp : sp.keyCols.isEmpty = false := by
    cases hx : sp.keyCols with
    | nil => exact absurd hx hkey
    | cons b l => rfl
  have hbc : (sp.upsert && !sp.keyCols.isEmpty) = true := by rw [hup, hkemp]; rfl
  obtain ⟨crows, existing, ha, hc, hl, hst1⟩ := copyWithTemp_ok_shape sem sp rows st st1 h1
  rw [hbc, if_pos rfl] at hst1
  have hl1 : dbLookup st1 (fqName sp.target) = some (upsertInsert sp existing crows) := by
    rw [hst1, dbLookup_dbDrop_ne _ _ _ hne, dbLookup_dbSet_self]
  have hl2 : dbLookup (dbSet (dbSet (dbDrop st1 (fqName (tmpName sp.target)))
      (fqName (tmpName sp.target)) []) (fqName (tmpName sp.target)) rows)
      (fqName sp.target) = some (upsertInsert sp existing crows) := by
    rw [dbLookup_dbSet_ne _ _ _ _ hne, dbLookup_dbSet_ne _ _ _ _ hne,
      dbLookup_dbDrop_ne _ _ _ hne]
    exact hl1
  refine ⟨_, copyWithTemp_ok_build sem sp rows st1 crows (upsertInsert sp existing crows)
    ha hc hl2, ?_⟩
  rw [dbLookup_dbDrop_ne _ _ _ hne, dbLookup_dbSet_self, hl1]
  rw [hbc, if_pos rfl, upsertInsert_idem]

def c5Row : Row :=
  [some "d1", some "T1", some "2024-01-01", some "2024-01-02",
   some "A", some "1.5", some "2.5", some "B", some "1.6", some "2.6",
   some "high", some "coal", some "10.00", some "20.00"]

/-- Witness for `C5_upsert_idempotent`: a deliveries load applied twice. -/
theorem C5_witness :
    deliveriesSpec.upsert = true ∧ deliveriesSpec.keyCols ≠ [] ∧
    copyWithTempState demoSem deliveriesSpec [c5Row] dbReady =
      Except.ok (dbSet dbReady (fqName "deliveries") [c5Row]) ∧
    (∃ st2, copyWithTempState demoSem deliveriesSpec [c5Row]
        (dbSet dbReady (fqName "deliveries") [c5Row]) = Except.ok st2 ∧
      dbLookup st2 (fqName deliveriesSpec.target) =
        dbLookup (dbSet dbReady (fqName "deliveries") [c5Row]) (fqName deliveriesSpec.target)) :=
  ⟨rfl, by decide, by decide,
   C5_upsert_idempotent demoSem deliveriesSpec [c5Row] dbReady
     (dbSet dbReady (fqName "deliveries") [c5Row]) rfl (by decide) (by decide)⟩

/-! ## Claim C9: a missing source file is a skip, not an error. -/

/-- The per-table status `main` prints: skipped when the file is absent,
loaded otherwise. -/
def statusFor (input : String → Option (List Row)) (n : String) : TStatus :=
  match input n with
  | none => TStatus.skipped
  | some _ => TStatus.loaded

/-- A present table's staged rows will load: right arity and every cast
succeeds. -/
def tableOk (sem : PgSem) (sp : TableSpec) (rows : List Row) : Bool :=
  rows.all (fun r => r.length = sp.cols.length) &&
  (match castRows sem sp rows with
   | Except.ok _ => true
   | Except.error _ => false)

/-- Every step whose file is present will load. -/
def stepsOk (sem : PgSem) (input : String → Option (List Row))
    (steps : List (String × TableSpec)) : Bool :=
  steps.all (fun p =>
    match input p.1 with
    | none => true
    | some rows => tableOk sem p.2 rows)

/-- Every step's target table exists in the given state. -/
def targetsReady (db : Db) (steps : List (String × TableSpec)) : Bool :=
  steps.all (fun p => (dbLookup db (fqName p.2.target)).isSome)

theorem lookup_map_status (steps : List (String × TableSpec)) (g : String → TStatus)
    (t : String) (hmem : t ∈ steps.map Prod.fst) :
    (steps.map (fun p => (p.1, g p.1))).lookup t = some (g t) := by
  induction steps with
  | nil => cases hmem
  | cons hd rest ih =>
    rcases hd with ⟨n1, sp1⟩
    simp only [List.map_cons, List.mem_cons] at hmem
    simp only [List.map_cons, List.lookup]
    by_cases h : t = n1
    · subst h
      simp
    · have hb : (t == n1) = false := beq_eq_false_iff_ne.mpr h
      rw [hb]
      rcases hmem with h1 | h2
      · exact absurd h1 h
      · exact ih h2

theorem runTables_completes (sem : PgSem) (input : String → Option (List Row)) :
    ∀ (steps : List (String × TableSpec)) (pending : Db) (acc : List (String × TStatus)),
      stepsOk sem input steps = true →
      targetsReady pending steps = true →
      (∀ p ∈ steps, ∀ q ∈ steps, fqName p.2.target ≠ fqName (tmpName q.2.target)) →
      ∃ pendF, runTables sem input steps pending acc =
        Except.ok (acc.reverse ++ steps.map (fun p => (p.1, statusFor input p.1)), pendF) := by
  intro steps
  induction steps with
  | nil =>
    intro pending acc _ _ _
    exact ⟨pending, by simp [runTables]⟩
  | cons hd rest ih =>
    rcases hd with ⟨n1, sp1⟩
    intro pending acc hok hready hclash
    simp only [stepsOk, List.all_cons, Bool.and_eq_true] at hok
    simp only [targetsReady, List.all_cons, Bool.and_eq_true] at hready
    obtain ⟨hok1, hokR⟩ := hok
    obtain ⟨hr1, hrR⟩ := hready
    have hclashR : ∀ p ∈ rest, ∀ q ∈ rest,
        fqName p.2.target ≠ fqName (tmpName q.2.target) :=
      fun p hp q hq =>
        hclash p (List.mem_cons_of_mem _ hp) q (List.mem_cons_of_mem _ hq)
    cases hI : input n1 with
    | none =>
      obtain ⟨pendF, hrun⟩ := ih pending ((n1, TStatus.skipped) :: acc) hokR hrR hclashR
      refine ⟨pendF, ?_⟩
      simp only [runTables, hI]
      rw [hrun]
      simp [statusFor, hI, List.reverse_cons, List.append_assoc]
    | some rows =>
      rw [hI] at hok1
      have htok : tableOk sem sp1 rows = true := hok1
      simp only [tableOk, Bool.and_eq_true] at htok
      obtain ⟨ha, hcok⟩ := htok
      cases hcr : castRows sem sp1 rows with
      | error e => rw [hcr] at hcok; cases hcok
      | ok crows =>
        obtain ⟨existing, hex⟩ : ∃ e, dbLookup pending (fqName sp1.target) = some e :=
          Option.isSome_iff_exists.mp hr1
        have hne : fqName sp1.target ≠ fqName (tmpName sp1.target) :=
          fun e => fq_tmp_ne_target _ e.symm
        have hl : dbLookup (dbSet (dbSet (dbDrop pending (fqName (tmpName sp1.target)))
            (fqName (tmpName sp1.target)) []) (fqName (tmpName sp1.target)) rows)
            (fqName sp1.target) = some existing := by
          rw [dbLookup_dbSet_ne _ _ _ _ hne, dbLookup_dbSet_ne _ _ _ _ hne,
            dbLookup_dbDrop_ne _ _ _ hne]
          exact hex
        have hcw := copyWithTemp_ok_build sem sp1 rows pending crows existing ha hcr hl
        have hready2 : targetsReady
            (dbDrop (dbSet (dbSet (dbSet (dbDrop pending (fqName (tmpName sp1.target)))
                (fqName (tmpName sp1.target)) []) (fqName (tmpName sp1.target)) rows)
              (fqName sp1.target)
              (if sp1.upsert && !sp1.keyCols.isEmpty then upsertInsert sp1 existing crows
               else existing ++ crows))
              (fqName (tmpName sp1.target))) rest = true := by
          simp only [targetsReady, List.all_eq_true] at hrR ⊢
          intro q hq
          have hqt : fqName q.2.target ≠ fqName (tmpName sp1.target) :=
            hclash q (List.mem_cons_of_mem _ hq) (n1, sp1) (List.mem_cons_self _ _)
          rw [dbLookup_dbDrop_ne _ _ _ hqt]
          by_cases hq2 : fqName q.2.target = fqName sp1.target
          · rw [hq2, dbLookup_dbSet_self]
            rfl
          · rw [dbLookup_dbSet_ne _ _ _ _ hq2, dbLookup_dbSet_ne _ _ _ _ hqt,
              dbLookup_dbSet_ne _ _ _ _ hqt, dbLookup_dbDrop_ne _ _ _ hqt]
            exact hrR q hq
        obtain ⟨pendF, hrun⟩ := ih _ ((n1, TStatus.loaded) :: acc) hokR hready2 hclashR
        refine ⟨pendF, ?_⟩
        simp only [runTables, hI, hcw]
        rw [hrun]
        simp [statusFor, hI, List.reverse_cons, List.append_assoc]

/-- Claim C9: in a run whose data directory is present but one table's source
file is missing, and in which every present table's rows load, the run
completes, records the missing table as skipped (not an error), and every
table whose file is present is loaded. -/
theorem C9_missing_file_skipped (sem : PgSem) (input : String → Option (List Row))
    (db : Db) (t : String)
    (hmem : t ∈ tableSteps.map Prod.fst) (hmiss : input t = none)
    (hok : stepsOk sem input tableSteps = true)
    (hready : targetsReady db tableSteps = true) :
    ∃ sts, (runMain sem input db).1 = Except.ok sts ∧
      sts.lookup t = some TStatus.skipped ∧
      (∀ n, n ∈ tableSteps.map Prod.fst → input n ≠ none →
        sts.lookup n = some TStatus.loaded) := by
  have hclash : ∀ p ∈ tableSteps, ∀ q ∈ tableSteps,
      fqName p.2.target ≠ fqName (tmpName q.2.target) := by decide
  obtain ⟨pendF, hrun⟩ := runTables_completes sem input tableSteps db [] hok hready hclash
  refine ⟨tableSteps.map (fun p => (p.1, statusFor input p.1)), ?_, ?_, ?_⟩
  · simp [runMain, hrun]
  · rw [lookup_map_status tableSteps (statusFor input) t hmem]
    simp [statusFor, hmiss]
  · intro n hn hnn
    rw [lookup_map_status tableSteps (statusFor input) n hn]
    cases hI : input n with
    | none => exact absurd hI hnn
    | some rows => simp [statusFor, hI]

def c9Roads : Row :=
  [some "S2", some "R2", some "1.5", some "2.5", some "1.6", some "2.6",
   some "100.0", some "primary", some "2", some "60", some "0", some "JHB", some "GP"]

def c9Truck : Row := [some "T2", some "3.5", some "3.1", some "2.5", some "1"]

def c9Deliv : Row :=
  [some "d2", some "T2", some "2024-01-01", some "2024-01-02",
   some "A", some "1.5", some "2.5", some "B", some "1.6", some "2.6",
   some "high", some "coal", some "10.00", some "20.00"]

def c9Assign : Row :=
  [some "a1", some "d2", some "2024-01-01", some "2024-01-02", some "10.5",
   some "30", some "[\"S1\"]", some "planned", some ""]

def c9Hist : Row :=
  [some "S1", some "2024-01-01", some "50.0", some "0.9", some "10", some "15", some "x"]

def c9Inc : Row :=
  [some "I1", some "2024-01-01", some "accident", some "3", some "1.1", some "2.2",
   some "S1", some "d", some "f"]

def c9Input : String → Option (List Row) :=
  fun n =>
    if n = "roads" then some [c9Roads]
    else if n = "truck_profiles" then some [c9Truck]
    else if n = "deliveries" then some [c9Deliv]
    else if n = "assignments" then some [c9Assign]
    else if n = "historical_speeds" then some [c9Hist]
    else if n = "incidents" then some [c9Inc]
    else none

/-- Witness for `C9_missing_file_skipped`: a run with `weather.csv` absent and
every other table present and loadable. -/
theorem C9_witness :
    ("weather" ∈ tableSteps.map Prod.fst) ∧ c9Input "weather" = none ∧
    stepsOk demoSem c9Input tableSteps = true ∧
    targetsReady dbReady tableSteps = true ∧
    (∃ sts, (runMain demoSem c9Input dbReady).1 = Except.ok sts ∧
      sts.lookup "weather" = some TStatus.skipped ∧
      (∀ n, n ∈ tableSteps.map Prod.fst → c9Input n ≠ none →
        sts.lookup n = some TStatus.loaded)) :=
  ⟨by decide, by decide, by decide, by decide,
   C9_missing_file_skipped demoSem c9Input dbReady "weather"
     (by decide) (by decide) (by decide) (by decide)⟩

/-! ## Association-list lemmas for the pandas column operations. -/

theorem lookup_cons {β : Type} (k : String) (w : β) (d : List (String × β)) (c : String) :
    List.lookup c ((k, w) :: d) = if c = k then some w else List.lookup c d := by
  by_cases h : c = k
  · have hb : (c == k) = true := beq_iff_eq.mpr h
    simp [List.lookup, hb, h]
  · have hb : (c == k) = false := beq_eq_false_iff_ne.mpr h
    simp [List.lookup, hb, h]

theorem lookup_none_iff {β : Type} (d : List (String × β)) (c : String) :
    List.lookup c d = none ↔ c ∉ d.map Prod.fst := by
  induction d with
  | nil => simp
  | cons p rest ih =>
    rcases p with ⟨k, w⟩
    rw [lookup_cons]
    by_cases h : c = k
    · simp [h]
    · simp [h, ih]

theorem lookup_append_some {β : Type} (A B : List (String × β)) (c : String) (v : β)
    (h : List.lookup c A = some v) : List.lookup c (A ++ B) = some v := by
  induction A with
  | nil => cases h
  | cons p rest ih =>
    rcases p with ⟨k, w⟩
    rw [lookup_cons] at h
    rw [List.cons_append, lookup_cons]
    by_cases hk : c = k
    · rw [if_pos hk] at h ⊢; exact h
    · rw [if_neg hk] at h ⊢; exact ih h

theorem lookup_append_none {β : Type} (A B : List (String × β)) (c : String)
    (h : List.lookup c A = none) : List.lookup c (A ++ B) = List.lookup c B := by
  induction A with
  | nil => rfl
  | cons p rest ih =>
    rcases p with ⟨k, w⟩
    rw [lookup_cons] at h
    rw [List.cons_append, lookup_cons]
    by_cases hk : c = k
    · rw [if_pos hk] at h; cases h
    · rw [if_neg hk] at h ⊢; exact ih h

theorem names_filter {β : Type} (d : List (String × β)) (q : String → Bool) :
    (d.filter (fun p => q p.1)).map Prod.fst = (d.map Prod.fst).filter q := by
  induction d with
  | nil => rfl
  | cons p rest ih =>
    rcases p with ⟨k, w⟩
    by_cases h : q k
    · simp [List.filter_cons, h, ih]
    · simp only [Bool.not_eq_true] at h
      simp [List.filter_cons, h, ih]

theorem lookup_filter_pos {β : Type} (d : List (String × β)) (q : String → Bool)
    (c : String) (hq : q c = true) :
    List.lookup c (d.filter (fun p => q p.1)) = List.lookup c d := by
  induction d with
  | nil => rfl
  | cons p rest ih =>
    rcases p with ⟨k, w⟩
    by_cases h : c = k
    · subst h
      simp [List.filter_cons, hq, lookup_cons, ih]
    · by_cases hk : q k
      · simp [List.filter_cons, hk, lookup_cons, h, ih]
      · simp only [Bool.not_eq_true] at hk
        simp [List.filter_cons, hk, lookup_cons, h, ih]

theorem lookup_filter_neg {β : Type} (d : List (String × β)) (q : String → Bool)
    (c : String) (hq : q c = false) :
    List.lookup c (d.filter (fun p => q p.1)) = none := by
  induction d with
  | nil => rfl
  | cons p rest ih =>
    rcases p with ⟨k, w⟩
    by_cases hk : q k
    · have hck : ¬ c = k := fun e => by rw [e, hk] at hq; cases hq
      simp [List.filter_cons, hk, lookup_cons, hck, ih]
    · simp only [Bool.not_eq_true] at hk
      simp [List.filter_cons, hk, ih]

theorem filter_eq_nil_of_not_mem (l : List String) (c : String) (h : c ∉ l) :
    l.filter (fun x => x = c) = [] := by
  induction l with
  | nil => rfl
  | cons k rest ih =>
    have hk : ¬ k = c := fun e => h (e ▸ List.mem_cons_self k rest)
    have hrest : c ∉ rest := fun e => h (List.mem_cons_of_mem _ e)
    simp [List.filter_cons, hk, ih hrest]

theorem filter_eq_singleton_of_nodup (l : List String) (c : String)
    (hnd : l.Nodup) (hc : c ∈ l) : l.filter (fun x => x = c) = [c] := by
  induction l with
  | nil => cases hc
  | cons k rest ih =>
    rcases List.nodup_cons.mp hnd with ⟨hk, hndr⟩
    by_cases h : k = c
    · subst h
      simp [List.filter_cons, filter_eq_nil_of_not_mem rest k hk]
    · rcases List.mem_cons.mp hc with h1 | h2
      · exact absurd h1.symm h
      · simp [List.filter_cons, h, ih hndr h2]

/-! ## Lemmas about the missing-column fill of `import_roads`. -/

theorem fillWith_names_mono {v : List String} (cs : List String) :
    ∀ (d : List (String × List String)) (c : String),
      c ∈ d.map Prod.fst → c ∈ (fillWith v cs d).map Prod.fst := by
  induction cs with
  | nil => intro d c hc; exact hc
  | cons c0 cs ih =>
    intro d c hc
    have hstep : fillWith v (c0 :: cs) d =
        fillWith v cs (if (d.map Prod.fst).contains c0 then d else d ++ [(c0, v)]) := rfl
    rw [hstep]
    apply ih
    by_cases h : (d.map Prod.fst).contains c0
    · rw [if_pos h]; exact hc
    · rw [if_neg h, List.map_append]; exact List.mem_append_left _ hc

theorem fillWith_names_of_mem {v : List String} (cs : List String) :
    ∀ (d : List (String × List String)) (c : String),
      c ∈ cs → c ∈ (fillWith v cs d).map Prod.fst := by
  induction cs with
  | nil => intro d c hc; cases hc
  | cons c0 cs ih =>
    intro d c hc
    have hstep : fillWith v (c0 :: cs) d =
        fillWith v cs (if (d.map Prod.fst).contains c0 then d else d ++ [(c0, v)]) := rfl
    rw [hstep]
    rcases List.mem_cons.mp hc with heq | htail
    · subst heq
      apply fillWith_names_mono
      by_cases h : (d.map Prod.fst).contains c
      · rw [if_pos h]; exact List.elem_iff.mp h
      · rw [if_neg h, List.map_append]
        exact List.mem_append_right _ (by simp)
    · exact ih _ c htail

theorem fillWith_names_nodup {v : List String} (cs : List String) :
    ∀ d : List (String × List String),
      (d.map Prod.fst).Nodup → ((fillWith v cs d).map Prod.fst).Nodup := by
  induction cs with
  | nil => intro d hd; exact hd
  | cons c0 cs ih =>
    intro d hd
    have hstep : fillWith v (c0 :: cs) d =
        fillWith v cs (if (d.map Prod.fst).contains c0 then d else d ++ [(c0, v)]) := rfl
    rw [hstep]
    apply ih
    by_cases h : (d.map Prod.fst).contains c0
    · rw [if_pos h]; exact hd
    · rw [if_neg h, List.map_append]
      have hnm : c0 ∉ d.map Prod.fst := fun e => h (List.elem_iff.mpr e)
      simp only [List.map_cons, List.map_nil]
      rw [List.nodup_append]
      exact ⟨hd, List.nodup_singleton _, by simpa using hnm⟩

theorem fillWith_lookup_present {v : List String} (cs : List String) :
    ∀ (d : List (String × List String)) (c : String), c ∈ d.map Prod.fst →
      List.lookup c (fillWith v cs d) = List.lookup c d := by
  induction cs with
  | nil => intro d c _; rfl
  | cons c0 cs ih =>
    intro d c hc
    have hstep : fillWith v (c0 :: cs) d =
        fillWith v cs (if (d.map Prod.fst).contains c0 then d else d ++ [(c0, v)]) := rfl
    rw [hstep]
    by_cases h : (d.map Prod.fst).contains c0
    · rw [if_pos h]; exact ih d c hc
    · rw [if_neg h]
      have hc2 : c ∈ (d ++ [(c0, v)]).map Prod.fst := by
        rw [List.map_append]; exact List.mem_append_left _ hc
      rw [ih _ c hc2]
      cases hl : List.lookup c d with
      | none => exact absurd ((lookup_none_iff d c).mp hl) (fun hno => hno hc)
      | some w => exact lookup_append_some _ _ _ _ hl

theorem fillWith_lookup_absent {v : List String} (cs : List String) :
    ∀ (d : List (String × List String)) (c : String), c ∉ d.map Prod.fst → c ∈ cs →
      List.lookup c (fillWith v cs d) = some v := by
  induction cs with
  | nil => intro d c _ hc; cases hc
  | cons c0 cs ih =>
    intro d c hnm hc
    have hstep : fillWith v (c0 :: cs) d =
        fillWith v cs (if (d.map Prod.fst).contains c0 then d else d ++ [(c0, v)]) := rfl
    rw [hstep]
    rcases List.mem_cons.mp hc with heq | htail
    · subst heq
      have h : ¬ (d.map Prod.fst).contains c := fun e => hnm (List.elem_iff.mp e)
      rw [if_neg h]
      have hmem : c ∈ (d ++ [(c, v)]).map Prod.fst := by
        rw [List.map_append]; exact List.mem_append_right _ (by simp)
      rw [fillWith_lookup_present cs _ c hmem]
      rw [lookup_append_none _ _ _ ((lookup_none_iff d c).mpr hnm)]
      rw [lookup_cons, if_pos rfl]
    · by_cases h : (d.map Prod.fst).contains c0
      · rw [if_pos h]; exact ih d c hnm htail
      · rw [if_neg h]
        by_cases hcc : c = c0
        · subst hcc
          have hmem : c ∈ (d ++ [(c, v)]).map Prod.fst := by
            rw [List.map_append]; exact List.mem_append_right _ (by simp)
          rw [fillWith_lookup_present cs _ c hmem]
          rw [lookup_append_none _ _ _ ((lookup_none_iff d c).mpr hnm)]
          rw [lookup_cons, if_pos rfl]
        · have hnm2 : c ∉ (d ++ [(c0, v)]).map Prod.fst := by
            rw [List.map_append]
            intro hmemx
            rcases List.mem_append.mp hmemx with h1 | h2
            · exact hnm h1
            · exact hcc (by simpa using h2)
          exact ih _ c hnm2 htail

/-! ## Lemmas about the label-based reorder `df[cols]`. -/

theorem reorder_names (cs : List String) (d : List (String × List String))
    (hnd : (d.map Prod.fst).Nodup) (hmem : ∀ c ∈ cs, c ∈ d.map Prod.fst) :
    (cs.flatMap (fun c => d.filter (fun p => p.1 = c))).map Prod.fst = cs := by
  induction cs with
  | nil => rfl
  | cons c0 cs ih =>
    rw [List.flatMap_cons, List.map_append]
    rw [names_filter d (fun x => x = c0)]
    rw [filter_eq_singleton_of_nodup _ _ hnd (hmem c0 (List.mem_cons_self c0 cs))]
    rw [ih (fun c hc => hmem c (List.mem_cons_of_mem _ hc))]
    rfl

theorem reorder_lookup_none (cs : List String) (d : List (String × List String))
    (c : String) (hnone : List.lookup c d = none) :
    List.lookup c (cs.flatMap (fun c' => d.filter (fun p => p.1 = c'))) = none := by
  induction cs with
  | nil => rfl
  | cons c0 cs ih =>
    rw [List.flatMap_cons]
    have hseg : List.lookup c (d.filter (fun p => p.1 = c0)) = none := by
      by_cases h : c = c0
      · subst h
        rw [lookup_filter_pos d (fun x => x = c) c (by simp)]
        exact hnone
      · exact lookup_filter_neg d (fun x => x = c0) c (by simp [h])
    rw [lookup_append_none _ _ _ hseg]
    exact ih

theorem reorder_lookup (cs : List String) (d : List (String × List String))
    (c : String) (hc : c ∈ cs) :
    List.lookup c (cs.flatMap (fun c' => d.filter (fun p => p.1 = c'))) =
      List.lookup c d := by
  induction cs with
  | nil => cases hc
  | cons c0 cs ih =>
    rw [List.flatMap_cons]
    by_cases h : c = c0
    · subst h
      have hseg : List.lookup c (d.filter (fun p => p.1 = c)) = List.lookup c d :=
        lookup_filter_pos d (fun x => x = c) c (by simp)
      cases hl : List.lookup c d with
      | none =>
        rw [lookup_append_none _ _ _ (by rw [hseg, hl])]
        exact reorder_lookup_none cs d c hl
      | some w =>
        exact lookup_append_some _ _ _ _ (by rw [hseg, hl])
    · have hseg : List.lookup c (d.filter (fun p => p.1 = c0)) = none :=
        lookup_filter_neg d (fun x => x = c0) c (by simp [h])
      rw [lookup_append_none _ _ _ hseg]
      rcases List.mem_cons.mp hc with h1 | h2
      · exact absurd h1 h
      · exact ih h2

theorem filter_fst_eq_nil (d : List (String × List String)) (c : String)
    (h : c ∉ d.map Prod.fst) : d.filter (fun p => p.1 = c) = [] := by
  have h2 : (d.filter (fun p => p.1 = c)).map Prod.fst = [] := by
    rw [names_filter d (fun x => x = c)]
    exact filter_eq_nil_of_not_mem _ c h
  exact List.map_eq_nil_iff.mp h2

theorem flatMap_filter_cons_ne (k : String) (w : List String)
    (rest : List (String × List String)) (cs : List String)
    (h : ∀ c ∈ cs, ¬ c = k) :
    cs.flatMap (fun c => ((k, w) :: rest).filter (fun p => p.1 = c)) =
      cs.flatMap (fun c => rest.filter (fun p => p.1 = c)) := by
  induction cs with
  | nil => rfl
  | cons c0 cs ih =>
    have hk : ¬ k = c0 := fun e => h c0 (List.mem_cons_self c0 cs) e.symm
    have hrest := ih (fun c hc => h c (List.mem_cons_of_mem _ hc))
    have hhead : ((k, w) :: rest).filter (fun p => p.1 = c0) =
        rest.filter (fun p => p.1 = c0) := by
      simp [List.filter_cons, hk]
    rw [List.flatMap_cons, List.flatMap_cons, hhead, hrest]

/-- Under duplicate-free labels, the per-request label selection of the keep
step collapses to a plain filter of the columns. -/
theorem select_kept_eq_filter (d : List (String × List String)) (q : String → Bool) :
    (d.map Prod.fst).Nodup →
    ((d.map Prod.fst).filter q).flatMap (fun c => d.filter (fun p => p.1 = c)) =
      d.filter (fun p => q p.1) := by
  induction d with
  | nil => intro _; rfl
  | cons p0 rest ih =>
    rcases p0 with ⟨k, w⟩
    intro hnd
    simp only [List.map_cons] at hnd
    rcases List.nodup_cons.mp hnd with ⟨hk, hndr⟩
    have hih := ih hndr
    have hne : ∀ c ∈ (rest.map Prod.fst).filter q, ¬ c = k :=
      fun c hc e => hk (e ▸ (List.mem_filter.mp hc).1)
    show ((k :: rest.map Prod.fst).filter q).flatMap
        (fun c => ((k, w) :: rest).filter (fun p => p.1 = c)) =
      ((k, w) :: rest).filter (fun p => q p.1)
    by_cases hq : q k
    · have hreq : (k :: rest.map Prod.fst).filter q =
          k :: (rest.map Prod.fst).filter q := by
        rw [List.filter_cons, if_pos hq]
      have hhead : ((k, w) :: rest).filter (fun p => p.1 = k) = [(k, w)] := by
        rw [List.filter_cons, if_pos (by simp)]
        rw [filter_fst_eq_nil rest k hk]
      have hrhs : ((k, w) :: rest).filter (fun p => q p.1) =
          (k, w) :: rest.filter (fun p => q p.1) := by
        rw [List.filter_cons, if_pos hq]
      rw [hreq, List.flatMap_cons, hhead,
        flatMap_filter_cons_ne k w rest ((rest.map Prod.fst).filter q) hne, hih, hrhs]
      rfl
    · have hreq : (k :: rest.map Prod.fst).filter q =
          (rest.map Prod.fst).filter q := by
        rw [List.filter_cons, if_neg hq]
      have hrhs : ((k, w) :: rest).filter (fun p => q p.1) =
          rest.filter (fun p => q p.1) := by
        rw [List.filter_cons, if_neg hq]
      rw [hreq, flatMap_filter_cons_ne k w rest ((rest.map Prod.fst).filter q) hne,
        hih, hrhs]

/-! ## The normalization of `import_roads`, under duplicate-free resolved headers. -/

theorem normalizeRoads_names (df : Df) (hnd : (dfNames (renameRoads df)).Nodup) :
    dfNames (normalizeRoads df) = roadsSpec.cols := by
  simp only [dfNames, normalizeRoads, reorderRoads, fillMissingRoads, keepRoads]
  rw [select_kept_eq_filter (renameRoads df).cols (fun c => roadsSpec.cols.contains c) hnd]
  apply reorder_names
  · apply fillWith_names_nodup
    rw [names_filter]
    exact List.Nodup.filter _ hnd
  · intro c hc
    exact fillWith_names_of_mem roadsSpec.cols _ c hc

theorem normalizeRoads_lookup (df : Df) (hnd : (dfNames (renameRoads df)).Nodup)
    (c : String) (hc : c ∈ roadsSpec.cols) :
    List.lookup c (normalizeRoads df).cols =
      some ((List.lookup c (renameRoads df).cols).getD (List.replicate df.nrows "")) := by
  have hqc : (roadsSpec.cols.contains c) = true := List.elem_iff.mpr hc
  simp only [normalizeRoads, reorderRoads, fillMissingRoads, keepRoads]
  rw [select_kept_eq_filter (renameRoads df).cols (fun c => roadsSpec.cols.contains c) hnd]
  rw [reorder_lookup roadsSpec.cols _ c hc]
  cases hlR : List.lookup c (renameRoads df).cols with
  | some w =>
    have hcR : c ∈ (renameRoads df).cols.map Prod.fst := by
      by_contra hn
      rw [(lookup_none_iff _ c).mpr hn] at hlR
      cases hlR
    have hcK : c ∈ ((renameRoads df).cols.filter
        (fun p => roadsSpec.cols.contains p.1)).map Prod.fst := by
      rw [names_filter]
      exact List.mem_filter.mpr ⟨hcR, hqc⟩
    rw [fillWith_lookup_present roadsSpec.cols _ c hcK]
    rw [lookup_filter_pos _ _ c hqc]
    rw [hlR]
    rfl
  | none =>
    have hcR : c ∉ (renameRoads df).cols.map Prod.fst := (lookup_none_iff _ c).mp hlR
    have hcK : c ∉ ((renameRoads df).cols.filter
        (fun p => roadsSpec.cols.contains p.1)).map Prod.fst := by
      rw [names_filter]
      intro hmm
      exact hcR (List.mem_filter.mp hmm).1
    rw [fillWith_lookup_absent roadsSpec.cols _ c hcK hc]
    rfl

/-! ## Claim C6: the roads header normalization. -/

def c6DupDf : Df := ⟨1, [("segment", ["s1"]), ("segment_id", ["s2"])]⟩

/-- Claim C6 is false as stated: when a known alias (`segment`) and its
canonical column (`segment_id`) occur together in the header set, the rename
step produces duplicate labels; the keep comprehension then requests the
duplicated label once per column bearing it, and pandas label selection
returns every matching column per request, so that label's columns appear
four times and the output has 16 columns rather than exactly the 13
canonical ones in canonical order. -/
theorem C6_counterexample :
    dfNames (normalizeRoads c6DupDf) ≠ roadsSpec.cols ∧
    (dfNames (normalizeRoads c6DupDf)).length = 16 ∧
    (dfNames (normalizeRoads c6DupDf)).count "segment_id" = 4 ∧
    roadsSpec.cols.length = 13 := by
  refine ⟨by decide, by decide, by decide, by decide⟩

/-- Claim C6 (amended): provided the source headers resolve to pairwise
distinct names under the alias map (no alias occurs together with its
canonical column or a sibling alias), the normalization is total and produces
exactly the canonical column list in canonical order: a canonical column
present among the resolved headers keeps its values, every missing canonical
column is synthesized with the empty string in every row, and every unknown
column is absent. -/
theorem C6_normalize_canonical (df : Df)
    (hnd : (dfNames (renameRoads df)).Nodup) :
    dfNames (normalizeRoads df) = roadsSpec.cols ∧
    ∀ c ∈ roadsSpec.cols,
      List.lookup c (normalizeRoads df).cols =
        some ((List.lookup c (renameRoads df).cols).getD (List.replicate df.nrows "")) :=
  ⟨normalizeRoads_names df hnd, fun c hc => normalizeRoads_lookup df hnd c hc⟩

def c6AliasDf : Df :=
  ⟨2, [("road", ["R1", "R2"]), ("name", ["x", "y"]), ("segment", ["S1", "S2"])]⟩

/-- Witness for `C6_normalize_canonical`: aliased, reordered headers with an
extra dropped column and ten missing canonical columns. -/
theorem C6_witness :
    (dfNames (renameRoads c6AliasDf)).Nodup ∧
    (dfNames (normalizeRoads c6AliasDf) = roadsSpec.cols ∧
     ∀ c ∈ roadsSpec.cols,
       List.lookup c (normalizeRoads c6AliasDf).cols =
         some ((List.lookup c (renameRoads c6AliasDf).cols).getD
           (List.replicate c6AliasDf.nrows ""))) :=
  ⟨by decide, C6_normalize_canonical c6AliasDf (by decide)⟩

/-! ## Claim C8: header reconciliation happens only in the roads importer. -/

theorem df_eta (x : Df) : (⟨x.nrows, x.cols⟩ : Df) = x := rfl

theorem zip_names_values (cs : List String) (d : List (String × List String))
    (h : d.map Prod.fst = cs) : cs.zip (d.map Prod.snd) = d := by
  induction d generalizing cs with
  | nil => rw [← h]; rfl
  | cons p rest ih =>
    rcases p with ⟨k, w⟩
    rw [← h]
    simp only [List.map_cons, List.zip_cons_cons]
    rw [ih (rest.map Prod.fst) rfl]

theorem stageByPosition_of_names (df2 : Df) (cs : List String) (h : dfNames df2 = cs) :
    stageByPosition cs df2 = some df2 := by
  have hlen : df2.cols.length = cs.length := by
    have h2 : (df2.cols.map Prod.fst).length = cs.length := congrArg List.length h
    rw [List.length_map] at h2
    exact h2
  unfold stageByPosition
  rw [if_pos hlen, zip_names_values cs df2.cols h, df_eta]

theorem stageByPosition_spec (cs : List String) (df : Df) (h : df.cols.length = cs.length) :
    ∃ d, stageByPosition cs df = some d ∧ dfNames d = cs ∧
      d.cols.map Prod.snd = df.cols.map Prod.snd := by
  refine ⟨⟨df.nrows, cs.zip (df.cols.map Prod.snd)⟩, ?_, ?_, ?_⟩
  · simp [stageByPosition, h]
  · show (cs.zip (df.cols.map Prod.snd)).map Prod.fst = cs
    apply List.map_fst_zip
    rw [List.length_map, h]
  · show (cs.zip (df.cols.map Prod.snd)).map Prod.snd = df.cols.map Prod.snd
    apply List.map_snd_zip
    rw [List.length_map, h]

def c8SwappedDf : Df :=
  ⟨1, [("timestamp", ["2024-01-01"]), ("segment_id", ["S1"]), ("avg_speed_kph", ["50"]),
      ("pct_freeflow", ["0.9"]), ("vehicle_count", ["10"]), ("interval_minutes", ["15"]),
      ("source", ["x"])]⟩

def c8Staged : Df :=
  ⟨1, [("segment_id", ["2024-01-01"]), ("timestamp", ["S1"]), ("avg_speed_kph", ["50"]),
      ("pct_freeflow", ["0.9"]), ("vehicle_count", ["10"]), ("interval_minutes", ["15"]),
      ("source", ["x"])]⟩

/-- Claim C8 is false as stated: the historical_speeds importer does not
reconcile headers.  A source file with its first two canonical columns swapped
is staged positionally (`COPY ... HEADER true` merely skips the header line),
so the staged `segment_id` column receives the timestamp values. -/
theorem C8_counterexample :
    stagedDf "historical_speeds" c8SwappedDf = some c8Staged ∧
    List.lookup "segment_id" c8Staged.cols = some ["2024-01-01"] ∧
    List.lookup "segment_id" c8SwappedDf.cols = some ["S1"] ∧
    (["2024-01-01"] : List String) ≠ ["S1"] := by
  refine ⟨by decide, by decide, by decide, by decide⟩

/-- Claim C8 (amended): only the roads importer reconciles headers through its
AliasMap (its staged table equals the normalized DataFrame, whose columns are
exactly canonical); every other table — `assignments` aside, which coerces
`route_segments` values but keeps the file's column order — is staged
positionally: the staged labels are the canonical ones but the value columns
are taken in file order regardless of the file's header names, so those files
must already match the canonical column order. -/
theorem C8_reconciliation_roads_only :
    (∀ df : Df, (dfNames (renameRoads df)).Nodup →
      stagedDf "roads" df = some (normalizeRoads df) ∧
      dfNames (normalizeRoads df) = roadsSpec.cols) ∧
    (∀ p ∈ tableSteps, p.1 ≠ "roads" → p.1 ≠ "assignments" →
      ∀ df : Df, df.cols.length = p.2.cols.length →
      ∃ d, stagedDf p.1 df = some d ∧ dfNames d = p.2.cols ∧
        d.cols.map Prod.snd = df.cols.map Prod.snd) := by
  constructor
  · intro df hnd
    have hnames : dfNames (normalizeRoads df) = roadsSpec.cols := normalizeRoads_names df hnd
    refine ⟨?_, hnames⟩
    have hsp := stageByPosition_of_names (normalizeRoads df) roadsSpec.cols hnames
    simp only [stagedDf]
    split
    · exact hsp
    · next hx => exact absurd (by trivial) hx
  · intro p hp h1 h2 df hlen
    simp only [tableSteps, List.mem_cons, List.not_mem_nil, or_false] at hp
    rcases hp with rfl | rfl | rfl | rfl | rfl | rfl | rfl
    · exact absurd rfl h1
    · exact stageByPosition_spec truckProfilesSpec.cols df hlen
    · exact stageByPosition_spec deliveriesSpec.cols df hlen
    · exact absurd rfl h2
    · exact stageByPosition_spec historicalSpeedsSpec.cols df hlen
    · exact stageByPosition_spec incidentsSpec.cols df hlen
    · exact stageByPosition_spec weatherSpec.cols df hlen

def c8AliasDf : Df := ⟨1, [("length", ["5"]), ("segment_id", ["S1"])]⟩

/-- Witness for `C8_reconciliation_roads_only`: roads reconciles an aliased,
permuted header subset, while historical_speeds stages a column-count-matching
file positionally. -/
theorem C8_witness :
    ((dfNames (renameRoads c8AliasDf)).Nodup ∧
     stagedDf "roads" c8AliasDf = some (normalizeRoads c8AliasDf) ∧
     dfNames (normalizeRoads c8AliasDf) = roadsSpec.cols) ∧
    (("historical_speeds", historicalSpeedsSpec) ∈ tableSteps ∧
     c8SwappedDf.cols.length = historicalSpeedsSpec.cols.length ∧
     (∃ d, stagedDf "historical_speeds" c8SwappedDf = some d ∧
        dfNames d = historicalSpeedsSpec.cols ∧
        d.cols.map Prod.snd = c8SwappedDf.cols.map Prod.snd)) :=
  ⟨⟨by decide, (C8_reconciliation_roads_only.1 c8AliasDf (by decide)).1,
    (C8_reconciliation_roads_only.1 c8AliasDf (by decide)).2⟩,
   ⟨by decide, by decide,
    C8_reconciliation_roads_only.2 ("historical_speeds", historicalSpeedsSpec)
      (by decide) (by decide) (by decide) c8SwappedDf (by decide)⟩⟩

end SmartMobility
